import Mathlib

/-!
A shallow embedding of the stock-analysis service in `src/app.py`.

Modelling conventions:
  * Dates are `ℤ`, prices and returns are exact rationals `ℚ`.
  * A pandas `Series` of floats indexed by date is `List (ℤ × ℚ)`; a series
    that may hold NaN entries is `List (ℤ × Option ℚ)` (`none` = NaN).
  * The float values the program produces are represented exactly by
    `FloatVal`: either NaN, a plain rational, a Pearson correlation
    `c / sqrt d`, or a Sharpe ratio `sqrt 12 * m / sqrt v`.  The partial map
    `FloatVal.means : FloatVal → ℝ → Prop` gives each non-NaN value its real
    number; NaN means no real number.
  * The market-data provider (yfinance) is an input: a `Provider` holds the
    outcome of the two `stock.history` calls, `Except` errors standing for
    raised exceptions (network faults, malformed responses).
-/

/-! ## Statistics over rational series  (pandas mean / std / corr) -/

/-- The non-missing values of a series, as pandas `skipna` computations see
them (`Series.mean`, `Series.std` and `isna().all()` skip NaN entries). -/
def validVals (xs : List (Option ℚ)) : List ℚ := xs.filterMap id

/-- `Series.mean` of a series without NaN entries. -/
def qmean (xs : List ℚ) : ℚ := xs.sum / xs.length

/-- `Σ (x - mean xs) * (y - mean ys)` over the zipped series: the building
block of pandas sample variance and Pearson correlation. -/
def centeredDot (xs ys : List ℚ) : ℚ :=
  ((xs.zip ys).map (fun p => (p.1 - qmean xs) * (p.2 - qmean ys))).sum

/-- The square of `Series.std()` (sample convention, `ddof=1`): `none` is the
NaN that pandas returns for fewer than two observations. -/
def sampleVar (xs : List ℚ) : Option ℚ :=
  if xs.length < 2 then none
  else some (centeredDot xs xs / ((xs.length : ℚ) - 1))

/-! ## Exact representation of the float values the program produces -/

/-- A float value of the program, represented exactly.  `sqrtRatio c d`
stands for `c / sqrt d` (a Pearson correlation, `d` the product of the two
centered sums of squares); `sharpeVal m v` stands for
`sqrt 12 * m / sqrt v` (`m` the mean excess return, `v` the sample variance
of the excess returns). -/
inductive FloatVal : Type where
  | nan : FloatVal
  | lit : ℚ → FloatVal
  | sqrtRatio : ℚ → ℚ → FloatVal
  | sharpeVal : ℚ → ℚ → FloatVal
  deriving DecidableEq

/-- The real number a non-NaN `FloatVal` stands for; NaN stands for none. -/
def FloatVal.means : FloatVal → ℝ → Prop
  | .nan, _ => False
  | .lit q, r => r = (q : ℝ)
  | .sqrtRatio c d, r => r = (c : ℝ) / Real.sqrt (d : ℝ)
  | .sharpeVal m v, r => r = Real.sqrt 12 * ((m : ℝ) / Real.sqrt (v : ℝ))

/-- `x if not np.isnan(x) else 0.0` (lines 102-103 of `src/app.py`). -/
def denan : FloatVal → FloatVal
  | .nan => .lit 0
  | v => v

/-- Every non-NaN `FloatVal` equals `p.1 / sqrt p.2` for this pair `p`
(`lit q` is `q / sqrt 1`, and `sqrt 12 * m / sqrt v = m / sqrt (v / 12)`);
the pair is the key on which float comparisons are decided exactly. -/
def keyRep : FloatVal → ℚ × ℚ
  | .nan => (0, 1)
  | .lit q => (q, 1)
  | .sqrtRatio c d => (c, d)
  | .sharpeVal m v => (m, v / 12)

/-- Whether `p.1 / sqrt p.2 < q.1 / sqrt q.2`, decided by signs and squares;
exact for positive second components. -/
def qsLT (p q : ℚ × ℚ) : Bool :=
  if p.1 < 0 then
    if 0 ≤ q.1 then true
    else decide (q.1 ^ 2 * p.2 < p.1 ^ 2 * q.2)
  else
    if q.1 ≤ 0 then false
    else decide (p.1 ^ 2 * q.2 < q.1 ^ 2 * p.2)

/-- The float `<` the Python sort key comparison performs. -/
def ltKey (a b : FloatVal) : Bool := qsLT (keyRep a) (keyRep b)

/-- The real value of `a` is at most the real value of `b` (about the `keyRep`
representation). -/
def realLE (a b : FloatVal) : Prop :=
  ((keyRep a).1 : ℝ) / Real.sqrt ((keyRep a).2 : ℝ) ≤
    ((keyRep b).1 : ℝ) / Real.sqrt ((keyRep b).2 : ℝ)

/-- Strict version of `realLE`. -/
def realLT (a b : FloatVal) : Prop :=
  ((keyRep a).1 : ℝ) / Real.sqrt ((keyRep a).2 : ℝ) <
    ((keyRep b).1 : ℝ) / Real.sqrt ((keyRep b).2 : ℝ)

/-- Every real number of `a` is at most every real number of `b`: "ordered
ascending by value" for the surfaced floats. -/
def floatLE (a b : FloatVal) : Prop :=
  ∀ r s : ℝ, a.means r → b.means s → r ≤ s

/-- A `FloatVal` whose key representation the comparisons decide exactly:
not NaN and with a positive radicand. -/
def goodVal (v : FloatVal) : Prop := v ≠ FloatVal.nan ∧ 0 < (keyRep v).2

/-! ## `calculate_sharpe_ratio` (lines 12-18) -/

/-- The non-missing excess returns: `returns - risk_free_rate/12`, NaN
entries staying NaN and skipped by `mean`/`std`. -/
def excessOf (returns : List (Option ℚ)) (risk_free_rate : ℚ) : List ℚ :=
  validVals (returns.map (Option.map (fun x => x - risk_free_rate / 12)))

/-- `calculate_sharpe_ratio` (lines 12-18).  Empty or all-NaN input returns
the 0.0 sentinel; a zero sample standard deviation of the excess returns
(`std = sqrt v = 0`, i.e. `v = 0`) returns the 0.0 sentinel; a NaN standard
deviation (fewer than two observations) fails the `== 0` test and makes the
final ratio NaN; otherwise the result is `sqrt 12 * mean / std`. -/
def calculate_sharpe_ratio (returns : List (Option ℚ)) (risk_free_rate : ℚ) : FloatVal :=
  if returns = [] ∨ validVals returns = [] then .lit 0
  else
    match sampleVar (excessOf returns risk_free_rate) with
    | none => .nan
    | some v =>
        if v = 0 then .lit 0
        else .sharpeVal (qmean (excessOf returns risk_free_rate)) v

/-! ## `get_monthly_returns` (lines 20-44) -/

/-- `Adj Close.pct_change()` on the rows after the first: `(p - prev)/prev`,
where the float quotient `0/0` is NaN (`none`).  A division of a nonzero
numerator by zero is `±inf` in floats, which `dropna` keeps; no claim relies
on that value, and Lean's `q / 0 = 0` stands in for it. -/
def pctPairs : ℚ → List (ℤ × ℚ) → List (ℤ × Option ℚ)
  | _, [] => []
  | prev, (d, p) :: rest =>
      (d, if prev = 0 ∧ p = 0 then none else some ((p - prev) / prev)) :: pctPairs p rest

/-- `Adj Close.pct_change()`: the first row is NaN, every later row is the
fractional change from its predecessor. -/
def pct_change : List (ℤ × ℚ) → List (ℤ × Option ℚ)
  | [] => []
  | (d, p) :: rest => (d, none) :: pctPairs p rest

/-- `Series.dropna()`: the rows whose value is not NaN. -/
def dropna (l : List (ℤ × Option ℚ)) : List (ℤ × ℚ) :=
  l.filterMap (fun p => p.2.map (fun v => (p.1, v)))

/-- `df['Adj Close'].pct_change().dropna()` (line 38). -/
def monthly_returns_of (df : List (ℤ × ℚ)) : List (ℤ × ℚ) :=
  dropna (pct_change df)

/-- The Return Series as the spec's words describe it: for each position
`t ≥ 1` of the price sequence, the entry `(date[t], (price[t] - price[t-1]) /
price[t-1])`, with no entry for the first date. -/
def specReturnSeries : List (ℤ × ℚ) → List (ℤ × ℚ)
  | [] => []
  | [_] => []
  | a :: b :: rest => (b.1, (b.2 - a.2) / a.2) :: specReturnSeries (b :: rest)

/-- The outcomes of the two provider calls `stock.history(...)` for one
symbol: an `Except.error` is an exception raised at the provider boundary
(network fault, malformed response, unexpected schema). -/
structure Provider : Type where
  probe : Except String (List (ℤ × ℚ))
  hist : Except String (List (ℤ × ℚ))

/-- The body of the `try:` block of `get_monthly_returns` (lines 21-40),
with provider exceptions propagating. -/
def fetch_body (pr : Provider) : Except String (List (ℤ × ℚ)) :=
  match pr.probe with
  | .error e => .error e
  | .ok daily =>
      if daily = [] then .ok []
      else
        match pr.hist with
        | .error e => .error e
        | .ok df => if df = [] then .ok [] else .ok (monthly_returns_of df)

/-- `get_monthly_returns` (lines 20-44): the `except Exception` handler turns
every provider fault into an empty series. -/
def get_monthly_returns (pr : Provider) : List (ℤ × ℚ) :=
  match fetch_body pr with
  | .error _ => []
  | .ok rs => rs

/-! ## Correlation of aligned series (lines 82-93) -/

/-- The value a series holds at a date (dates are unique in a series). -/
def lookupDate : List (ℤ × ℚ) → ℤ → Option ℚ
  | [], _ => none
  | (d₀, v) :: rest, d => if d₀ = d then some v else lookupDate rest d

/-- `pd.concat([stock, bench], axis=1).dropna()` (line 84): the inner join of
the two series on their date index, as (stock value, benchmark value) rows. -/
def innerJoin (a b : List (ℤ × ℚ)) : List (ℚ × ℚ) :=
  a.filterMap (fun p => (lookupDate b p.1).map (fun q => (p.2, q)))

/-- `Series.corr` (Pearson, line 86): NaN when either centered sum of squares
is zero (this covers fewer than two rows), else
`Sxy / sqrt (Sxx * Syy)`, the Pearson correlation coefficient. -/
def seriesCorr (xs ys : List ℚ) : FloatVal :=
  if centeredDot xs xs = 0 ∨ centeredDot ys ys = 0 then .nan
  else .sqrtRatio (centeredDot xs ys) (centeredDot xs xs * centeredDot ys ys)

/-- The `correlation` variable of the per-ticker loop (lines 82-93): 0.0 when
either series is empty or the aligned pair is empty, else the Pearson
correlation of the aligned columns. -/
def rawCorr (stock bench : List (ℤ × ℚ)) : FloatVal :=
  if stock ≠ [] ∧ bench ≠ [] then
    if innerJoin stock bench ≠ [] then
      seriesCorr ((innerJoin stock bench).map Prod.fst) ((innerJoin stock bench).map Prod.snd)
    else .lit 0
  else .lit 0

/-! ## Per-ticker results and the endpoint (lines 46-123) -/

/-- One entry of `results` (lines 100-105).  `returns` holds the series
values; `dropna` already removed every NaN from them, so the per-element
NaN guard of line 104 is the identity here. -/
structure TickerResult : Type where
  ticker : String
  correlation : FloatVal
  sharpe_ratio : FloatVal
  returns : List ℚ
  deriving DecidableEq

/-- The per-ticker body of the loop (lines 79-105): correlation and Sharpe
ratio with NaN normalized to 0.0, and the raw return values. -/
def processTicker (bench stock : List (ℤ × ℚ)) (t : String) : TickerResult :=
  { ticker := t
    correlation := denan (rawCorr stock bench)
    sharpe_ratio := denan (calculate_sharpe_ratio (stock.map (fun p => some p.2)) 0.02)
    returns := stock.map Prod.snd }

/-- `benchmark_options` (line 59): NASDAQ first, then S&P 500. -/
def benchmark_options : List String := ["^IXIC", "^GSPC"]

/-- Outcome of the benchmark loop (lines 60-69): the selected series, the
symbol used (`none` when every candidate was empty), and the symbols that
were actually fetched, in order. -/
structure BenchSel : Type where
  series : List (ℤ × ℚ)
  used : Option String
  fetched : List String
  deriving DecidableEq

/-- The benchmark loop (lines 63-69): fetch candidates in order, stop at the
first non-empty series. -/
def selectBenchmark (env : String → Provider) : List String → BenchSel
  | [] => { series := [], used := none, fetched := [] }
  | b :: rest =>
      if get_monthly_returns (env b) = [] then
        { series := (selectBenchmark env rest).series
          used := (selectBenchmark env rest).used
          fetched := b :: (selectBenchmark env rest).fetched }
      else
        { series := get_monthly_returns (env b), used := some b, fetched := [b] }

/-- The 400 message of line 72, with Python's rendering of the list. -/
def benchErrMsg : String :=
  "Unable to fetch benchmark data. Tried ['^IXIC', '^GSPC']. Please try again later."

/-- `correlations[ticker] = correlation` (line 95): Python dict assignment,
updating in place when the key exists and appending otherwise. -/
def dictSet : List (String × FloatVal) → String → FloatVal → List (String × FloatVal)
  | [], k, v => [(k, v)]
  | (k₀, v₀) :: rest, k, v =>
      if k₀ = k then (k, v) :: rest else (k₀, v₀) :: dictSet rest k v

/-- The `correlations` dict after the per-ticker loop. -/
def corrMapOf (env : String → Provider) (bench : List (ℤ × ℚ)) (tickers : List String) :
    List (String × FloatVal) :=
  tickers.foldl (fun m t => dictSet m t (rawCorr (get_monthly_returns (env t)) bench)) []

/-- Stable insertion of an entry by ascending float key: skip the strictly
smaller entries, then place the new entry before the first entry not below
it (ties keep the earlier entry first, as Python's stable sort does). -/
def insertCorr (x : String × FloatVal) : List (String × FloatVal) → List (String × FloatVal)
  | [] => [x]
  | y :: ys => if ltKey y.2 x.2 then y :: insertCorr x ys else x :: y :: ys

/-- `sorted(correlations.items(), key=lambda x: x[1])` (line 108): a stable
sort ascending by correlation value. -/
def sortCorr : List (String × FloatVal) → List (String × FloatVal)
  | [] => []
  | x :: xs => insertCorr x (sortCorr xs)

/-- The JSON payload of a 200 response (lines 112-118). -/
structure AnalysisResult : Type where
  stockData : List TickerResult
  benchmarkReturns : List ℚ
  benchmarkUsed : Option String
  highestCorrTicker : String
  lowestCorrTicker : String
  deriving DecidableEq

/-- The three ways `get_stock_analysis` answers: 200 with a payload, 400 for
an unavailable benchmark, 500 from the outer exception handler. -/
inductive Response : Type where
  | ok : AnalysisResult → Response
  | clientError : String → Response
  | serverError : String → Response
  deriving DecidableEq

/-- Lines 109-110: `sorted[0][0] if sorted else tickers[0]` and
`sorted[-1][0] if sorted else tickers[0]`, as the (highest, lowest) pair;
with both lists empty, `tickers[0]` raises IndexError, modelled as the
error branch. -/
def summaryOf : List (String × FloatVal) → List String → Except String (String × String)
  | [], [] => .error "list index out of range"
  | [], t :: _ => .ok (t, t)
  | x :: xs, _ => .ok (((x :: xs).getLast (List.cons_ne_nil x xs)).1, x.1)

/-- `get_stock_analysis` (lines 46-123).  The benchmark loop runs first; an
empty result is the 400 error.  Then the per-ticker loop, the sort of the
correlations, and the summary; an IndexError from the summary reaches the
outer `except` handler, which prefixes `Error in analysis: ` and answers
with the 500 response. -/
def get_stock_analysis (env : String → Provider) (tickers : List String) : Response :=
  if (selectBenchmark env benchmark_options).series = [] then
    Response.clientError benchErrMsg
  else
    match summaryOf
        (sortCorr (corrMapOf env (selectBenchmark env benchmark_options).series tickers))
        tickers with
    | .error e => Response.serverError ("Error in analysis: " ++ e)
    | .ok hilo =>
        Response.ok
          { stockData := tickers.map (fun t₀ =>
              processTicker (selectBenchmark env benchmark_options).series
                (get_monthly_returns (env t₀)) t₀)
            benchmarkReturns := (selectBenchmark env benchmark_options).series.map Prod.snd
            benchmarkUsed := (selectBenchmark env benchmark_options).used
            highestCorrTicker := hilo.1
            lowestCorrTicker := hilo.2 }

/-! ## Concrete environments used by the witnesses -/

/-- A provider whose symbol exists and has three monthly observations. -/
def stubProvider : Provider :=
  { probe := .ok [(0, 1)], hist := .ok [(0, 1), (1, 2), (2, 6)] }

/-- Every symbol resolves to `stubProvider`. -/
def stubEnv : String → Provider := fun _ => stubProvider

/-- Every symbol but `"BAD"` resolves; `"BAD"` has no data at all. -/
def mixedEnv : String → Provider :=
  fun s => if s = "BAD" then { probe := .ok [], hist := .ok [] } else stubProvider

/-- The 200 payload `get_stock_analysis stubEnv ["A"]` produces. -/
def resW : AnalysisResult :=
  { stockData := [{ ticker := "A", correlation := FloatVal.sqrtRatio (1 / 2) (1 / 4),
                    sharpe_ratio := FloatVal.sharpeVal (899 / 600) (1 / 2), returns := [1, 2] }]
    benchmarkReturns := [1, 2]
    benchmarkUsed := some "^IXIC"
    highestCorrTicker := "A"
    lowestCorrTicker := "A" }

/-! ## Helper lemmas -/

lemma dropna_cons_none (d : ℤ) (l : List (ℤ × Option ℚ)) :
    dropna ((d, none) :: l) = dropna l := by
  simp [dropna]

lemma dropna_pctPairs_eq (l : List (ℤ × ℚ)) :
    ∀ (p : ℚ) (d : ℤ), p ≠ 0 → (∀ x ∈ l, x.2 ≠ 0) →
      dropna (pctPairs p l) = specReturnSeries ((d, p) :: l) := by
  induction l with
  | nil => intro p d _ _; rfl
  | cons b tl ih =>
      intro p d hp h
      obtain ⟨d₂, q⟩ := b
      have hq : q ≠ 0 := h (d₂, q) (List.mem_cons_self _ _)
      have hcond : ¬ (p = 0 ∧ q = 0) := fun hc => hp hc.1
      show dropna ((d₂, if p = 0 ∧ q = 0 then none else some ((q - p) / p)) :: pctPairs q tl) = _
      rw [if_neg hcond]
      show (d₂, (q - p) / p) :: dropna (pctPairs q tl) = _
      rw [ih q d₂ hq (fun x hx => h x (List.mem_cons_of_mem _ hx))]
      rfl

lemma monthly_eq_spec (df : List (ℤ × ℚ)) (h : ∀ x ∈ df, x.2 ≠ 0) :
    monthly_returns_of df = specReturnSeries df := by
  cases df with
  | nil => rfl
  | cons a tl =>
      obtain ⟨d, p⟩ := a
      have hp : p ≠ 0 := h (d, p) (List.mem_cons_self _ _)
      show dropna ((d, none) :: pctPairs p tl) = _
      rw [dropna_cons_none]
      exact dropna_pctPairs_eq tl p d hp (fun x hx => h x (List.mem_cons_of_mem _ hx))

lemma specReturnSeries_length (df : List (ℤ × ℚ)) :
    (specReturnSeries df).length = df.length - 1 := by
  induction df with
  | nil => rfl
  | cons a tl ih =>
      cases tl with
      | nil => rfl
      | cons b tl₂ =>
          show ((b.1, (b.2 - a.2) / a.2) :: specReturnSeries (b :: tl₂)).length = _
          simp only [List.length_cons] at ih ⊢
          omega

lemma specReturnSeries_dates (df : List (ℤ × ℚ)) :
    (specReturnSeries df).map Prod.fst = (df.map Prod.fst).tail := by
  induction df with
  | nil => rfl
  | cons a tl ih =>
      cases tl with
      | nil => rfl
      | cons b tl₂ =>
          show (b.1, (b.2 - a.2) / a.2).1 :: (specReturnSeries (b :: tl₂)).map Prod.fst = _
          rw [ih]
          rfl

lemma zip_self_map (xs : List ℚ) : xs.zip xs = xs.map (fun x => (x, x)) := by
  induction xs with
  | nil => rfl
  | cons x tl ih => simp [List.zip_cons_cons, ih]

lemma centeredDot_self_nonneg (xs : List ℚ) : 0 ≤ centeredDot xs xs := by
  unfold centeredDot
  rw [zip_self_map, List.map_map]
  apply List.sum_nonneg
  intro a ha
  obtain ⟨y, _, rfl⟩ := List.mem_map.mp ha
  exact mul_self_nonneg _

lemma sampleVar_nonneg (xs : List ℚ) (v : ℚ) (h : sampleVar xs = some v) : 0 ≤ v := by
  unfold sampleVar at h
  by_cases hl : xs.length < 2
  · simp [hl] at h
  · rw [if_neg hl, Option.some.injEq] at h
    have h2 : (2 : ℚ) ≤ (xs.length : ℚ) := by exact_mod_cast Nat.le_of_not_lt hl
    have hpos : (0 : ℚ) < (xs.length : ℚ) - 1 := by linarith
    exact h ▸ div_nonneg (centeredDot_self_nonneg xs) hpos.le

lemma validVals_map_sub (xs : List (Option ℚ)) (c : ℚ) :
    validVals (xs.map (Option.map (fun x => x - c))) = (validVals xs).map (fun x => x - c) := by
  induction xs with
  | nil => rfl
  | cons a tl ih =>
      cases a with
      | none => simpa [validVals] using ih
      | some q => simpa [validVals] using ih

lemma excessOf_eq (xs : List (Option ℚ)) (c : ℚ) :
    excessOf xs c = (validVals xs).map (fun x => x - c / 12) :=
  validVals_map_sub xs (c / 12)

/-! ## Claim theorems -/

/-- C1: `calculate_sharpe_ratio` at the default annual risk-free rate 0.02
returns exactly 0.0 when the series is empty, when all its values are
missing, or when the sample standard deviation of the excess returns
(each value minus 0.02/12) is exactly zero (for the variance `v` returned by
`sampleVar`, `sqrt v = 0` iff `v = 0`); when the standard deviation is a
nonzero number the result is `sqrt 12 * mean excess / sqrt v`, the stated
formula; when the standard deviation is NaN (a single observation) the
formula itself is NaN, and NaN is returned. -/
theorem calculate_sharpe_ratio_C1 (returns : List (Option ℚ)) :
    (returns = [] ∨ validVals returns = [] →
        calculate_sharpe_ratio returns 0.02 = FloatVal.lit 0) ∧
    (∀ v : ℚ, sampleVar (excessOf returns 0.02) = some v →
        (Real.sqrt (v : ℝ) = 0 ↔ v = 0) ∧
        (v = 0 → calculate_sharpe_ratio returns 0.02 = FloatVal.lit 0)) ∧
    (∀ v : ℚ, validVals returns ≠ [] → sampleVar (excessOf returns 0.02) = some v → v ≠ 0 →
        calculate_sharpe_ratio returns 0.02 =
          FloatVal.sharpeVal (qmean (excessOf returns 0.02)) v ∧
        (∀ r : ℝ, (FloatVal.sharpeVal (qmean (excessOf returns 0.02)) v).means r ↔
          r = Real.sqrt 12 * ((qmean (excessOf returns 0.02) : ℝ) / Real.sqrt (v : ℝ)))) ∧
    (validVals returns ≠ [] → sampleVar (excessOf returns 0.02) = none →
        calculate_sharpe_ratio returns 0.02 = FloatVal.nan) := by
  refine ⟨?_, ?_, ?_, ?_⟩
  · intro h
    unfold calculate_sharpe_ratio
    rw [if_pos h]
  · intro v hv
    constructor
    · have h0 : (0 : ℝ) ≤ (v : ℝ) := by exact_mod_cast sampleVar_nonneg _ v hv
      rw [Real.sqrt_eq_zero h0]
      exact_mod_cast Iff.rfl
    · intro hv0
      have hne : ¬ (returns = [] ∨ validVals returns = []) := by
        rintro (h | h)
        · rw [excessOf_eq] at hv
          simp [h, validVals, sampleVar] at hv
        · rw [excessOf_eq, h] at hv
          simp [sampleVar] at hv
      unfold calculate_sharpe_ratio
      rw [if_neg hne, hv]
      simp [hv0]
  · intro v hvalid hv hv0
    have hne : ¬ (returns = [] ∨ validVals returns = []) := by
      rintro (h | h)
      · exact hvalid (by simp [validVals, h])
      · exact hvalid h
    constructor
    · unfold calculate_sharpe_ratio
      rw [if_neg hne, hv]
      simp [hv0]
    · intro r
      exact Iff.rfl
  · intro hvalid hv
    have hne : ¬ (returns = [] ∨ validVals returns = []) := by
      rintro (h | h)
      · exact hvalid (by simp [validVals, h])
      · exact hvalid h
    unfold calculate_sharpe_ratio
    rw [if_neg hne, hv]

/-- C3 (amended): for every non-empty price sequence in which no adjusted
close is zero, the derived return series is exactly the spec's return
series: length `n - 1`, entry `t` equal to
`(price[t] - price[t-1]) / price[t-1]`, and no entry for the first date
(its date column is the tail of the price date column). -/
theorem monthly_returns_C3 (df : List (ℤ × ℚ)) (_hne : df ≠ [])
    (h0 : ∀ x ∈ df, x.2 ≠ 0) :
    monthly_returns_of df = specReturnSeries df ∧
    (monthly_returns_of df).length = df.length - 1 ∧
    (monthly_returns_of df).map Prod.fst = (df.map Prod.fst).tail := by
  have h := monthly_eq_spec df h0
  refine ⟨h, ?_, ?_⟩
  · rw [h, specReturnSeries_length]
  · rw [h, specReturnSeries_dates]

/-- C3, counterexample to the claim as stated: on the price sequence
`[0, 0]` the float return `(0 - 0) / 0` is NaN, `dropna` removes it, and the
derived series has length 0, not `n - 1 = 1`. -/
theorem monthly_returns_C3_counterexample :
    ¬ ((monthly_returns_of [((0 : ℤ), (0 : ℚ)), (1, 0)]).length =
        [((0 : ℤ), (0 : ℚ)), (1, 0)].length - 1) := by
  have h : monthly_returns_of [((0 : ℤ), (0 : ℚ)), (1, 0)] = [] := by
    simp [monthly_returns_of, pct_change, pctPairs, dropna]
  rw [h]
  simp

/-- C3, witness: the amended theorem applied to the two-observation price
sequence `[1, 2]`, whose return series is `[(2 - 1) / 1]` of length 1. -/
theorem monthly_returns_C3_witness :
    monthly_returns_of [((0 : ℤ), (1 : ℚ)), (1, 2)] =
        specReturnSeries [((0 : ℤ), (1 : ℚ)), (1, 2)] ∧
    (monthly_returns_of [((0 : ℤ), (1 : ℚ)), (1, 2)]).length =
        [((0 : ℤ), (1 : ℚ)), (1, 2)].length - 1 ∧
    (monthly_returns_of [((0 : ℤ), (1 : ℚ)), (1, 2)]).map Prod.fst =
        ([((0 : ℤ), (1 : ℚ)), (1, 2)].map Prod.fst).tail :=
  monthly_returns_C3 [((0 : ℤ), (1 : ℚ)), (1, 2)] (by simp) (by norm_num)

/-- C5: `get_monthly_returns` is a total function into series (no exception
reaches the caller), and every fault case yields the empty series: a raised
probe, an empty probe result, a raised history call, an empty history, and
in general any error of the try-block body. -/
theorem get_monthly_returns_C5 (pr : Provider) :
    (∀ e, pr.probe = .error e → get_monthly_returns pr = []) ∧
    (pr.probe = .ok [] → get_monthly_returns pr = []) ∧
    (∀ e, pr.hist = .error e → get_monthly_returns pr = []) ∧
    (pr.hist = .ok [] → get_monthly_returns pr = []) ∧
    (∀ e, fetch_body pr = .error e → get_monthly_returns pr = []) ∧
    (∀ daily df, pr.probe = .ok daily → daily ≠ [] → pr.hist = .ok df → df ≠ [] →
      get_monthly_returns pr = monthly_returns_of df) := by
  obtain ⟨probe, hist⟩ := pr
  refine ⟨?_, ?_, ?_, ?_, ?_, ?_⟩
  · rintro e rfl
    rfl
  · rintro rfl
    rfl
  · rintro e rfl
    cases probe with
    | error e₀ => rfl
    | ok daily =>
        by_cases hd : daily = [] <;>
          simp [get_monthly_returns, fetch_body, hd]
  · rintro rfl
    cases probe with
    | error e₀ => rfl
    | ok daily =>
        by_cases hd : daily = [] <;>
          simp [get_monthly_returns, fetch_body, hd]
  · rintro e he
    simp [get_monthly_returns, he]
  · rintro daily df rfl hd rfl hdf
    simp [get_monthly_returns, fetch_body, hd, hdf]

/-- C9: the Pearson correlation the code computes on two aligned sequences
of equal length is symmetric in its two arguments. -/
theorem seriesCorr_C9 (xs ys : List ℚ) (_h : xs.length = ys.length) :
    seriesCorr xs ys = seriesCorr ys xs := by
  have hcomm : centeredDot xs ys = centeredDot ys xs := by
    unfold centeredDot
    rw [← List.zip_swap ys xs, List.map_map]
    congr 1
    apply List.map_congr_left
    intro a _
    simp [mul_comm]
  by_cases h1 : centeredDot xs xs = 0 <;> by_cases h2 : centeredDot ys ys = 0 <;>
    simp [seriesCorr, h1, h2, hcomm, mul_comm]

/-- C9, witness: symmetry at the concrete aligned pair `([1, 2], [3, 5])`. -/
theorem seriesCorr_C9_witness :
    seriesCorr [1, 2] [3, 5] = seriesCorr [3, 5] [1, 2] :=
  seriesCorr_C9 [1, 2] [3, 5] (by simp)

/-- C2: the correlation surfaced in a `TickerResult` is `denan` of the raw
correlation; it is exactly 0.0 when the ticker series or the benchmark
series is empty or the inner join of the two is empty; on a non-empty join
it is `seriesCorr` of the two aligned columns, NaN being normalized to 0.0
and any non-NaN value surfaced unchanged; `seriesCorr` is NaN exactly when
a centered sum of squares vanishes, and otherwise means the Pearson
coefficient `Sxy / (sqrt Sxx * sqrt Syy)`. -/
theorem correlation_C2 (bench stock : List (ℤ × ℚ)) (t : String) :
    (processTicker bench stock t).correlation = denan (rawCorr stock bench) ∧
    (stock = [] ∨ bench = [] → (processTicker bench stock t).correlation = FloatVal.lit 0) ∧
    (innerJoin stock bench = [] →
      (processTicker bench stock t).correlation = FloatVal.lit 0) ∧
    (stock ≠ [] → bench ≠ [] → innerJoin stock bench ≠ [] →
      rawCorr stock bench =
        seriesCorr ((innerJoin stock bench).map Prod.fst)
          ((innerJoin stock bench).map Prod.snd) ∧
      (rawCorr stock bench = FloatVal.nan →
        (processTicker bench stock t).correlation = FloatVal.lit 0) ∧
      (rawCorr stock bench ≠ FloatVal.nan →
        (processTicker bench stock t).correlation = rawCorr stock bench)) ∧
    (∀ xs ys : List ℚ,
      (centeredDot xs xs = 0 ∨ centeredDot ys ys = 0 → seriesCorr xs ys = FloatVal.nan) ∧
      (centeredDot xs xs ≠ 0 → centeredDot ys ys ≠ 0 →
        seriesCorr xs ys =
          FloatVal.sqrtRatio (centeredDot xs ys) (centeredDot xs xs * centeredDot ys ys) ∧
        (∀ r : ℝ, (seriesCorr xs ys).means r ↔
          r = (centeredDot xs ys : ℝ) /
            (Real.sqrt (centeredDot xs xs : ℝ) * Real.sqrt (centeredDot ys ys : ℝ))))) := by
  refine ⟨rfl, ?_, ?_, ?_, ?_⟩
  · intro h
    have hcond : ¬ (stock ≠ [] ∧ bench ≠ []) := by
      rcases h with h | h <;> simp [h]
    show denan (rawCorr stock bench) = FloatVal.lit 0
    unfold rawCorr
    rw [if_neg hcond]
    rfl
  · intro hj
    show denan (rawCorr stock bench) = FloatVal.lit 0
    unfold rawCorr
    by_cases hcond : stock ≠ [] ∧ bench ≠ []
    · rw [if_pos hcond, if_neg (by simp [hj])]
      rfl
    · rw [if_neg hcond]
      rfl
  · intro hs hb hj
    have hcond : stock ≠ [] ∧ bench ≠ [] := ⟨hs, hb⟩
    refine ⟨?_, ?_, ?_⟩
    · unfold rawCorr
      rw [if_pos hcond, if_pos hj]
    · intro hnan
      show denan (rawCorr stock bench) = FloatVal.lit 0
      rw [hnan]
      rfl
    · intro hnan
      show denan (rawCorr stock bench) = rawCorr stock bench
      cases hv : rawCorr stock bench with
      | nan => exact absurd hv hnan
      | lit q => rfl
      | sqrtRatio c d => rfl
      | sharpeVal m v => rfl
  · intro xs ys
    constructor
    · intro h
      unfold seriesCorr
      rw [if_pos h]
    · intro h1 h2
      have hguard : ¬ (centeredDot xs xs = 0 ∨ centeredDot ys ys = 0) := by
        simp [h1, h2]
      constructor
      · unfold seriesCorr
        rw [if_neg hguard]
      · intro r
        unfold seriesCorr
        rw [if_neg hguard]
        show r = _ ↔ _
        have hxx : (0 : ℝ) ≤ (centeredDot xs xs : ℝ) := by
          exact_mod_cast centeredDot_self_nonneg xs
        have hmul : Real.sqrt ((centeredDot xs xs : ℚ) * (centeredDot ys ys : ℚ) : ℚ) =
            Real.sqrt (centeredDot xs xs : ℝ) * Real.sqrt (centeredDot ys ys : ℝ) := by
          push_cast
          exact Real.sqrt_mul hxx _
        rw [hmul]

/-- C4: the benchmark loop tries `^IXIC` before `^GSPC`: when `^IXIC` has a
non-empty series it is used and `^GSPC` is never fetched; when `^IXIC` is
empty and `^GSPC` is not, both are fetched and `^GSPC` is used; when both
are empty, every request answers the 400 error whose message names both
tried symbols, independently of the requested tickers (no per-ticker
processing happens). -/
theorem benchmark_C4 (env : String → Provider) :
    (get_monthly_returns (env "^IXIC") ≠ [] →
      selectBenchmark env benchmark_options =
        { series := get_monthly_returns (env "^IXIC"), used := some "^IXIC",
          fetched := ["^IXIC"] }) ∧
    (get_monthly_returns (env "^IXIC") = [] → get_monthly_returns (env "^GSPC") ≠ [] →
      selectBenchmark env benchmark_options =
        { series := get_monthly_returns (env "^GSPC"), used := some "^GSPC",
          fetched := ["^IXIC", "^GSPC"] }) ∧
    (get_monthly_returns (env "^IXIC") = [] → get_monthly_returns (env "^GSPC") = [] →
      ∀ tickers : List String, get_stock_analysis env tickers = Response.clientError benchErrMsg) ∧
    (∃ s₁ s₂ s₃ : String, benchErrMsg = s₁ ++ "^IXIC" ++ s₂ ++ "^GSPC" ++ s₃) := by
  refine ⟨?_, ?_, ?_, ?_⟩
  · intro h1
    show selectBenchmark env ("^IXIC" :: ["^GSPC"]) = _
    unfold selectBenchmark
    rw [if_neg (by simpa using h1)]
  · intro h1 h2
    show selectBenchmark env ("^IXIC" :: ["^GSPC"]) = _
    unfold selectBenchmark
    rw [if_pos h1]
    unfold selectBenchmark
    rw [if_neg (by simpa using h2)]
  · intro h1 h2 tickers
    have hsel : (selectBenchmark env benchmark_options).series = [] := by
      show (selectBenchmark env ("^IXIC" :: ["^GSPC"])).series = []
      unfold selectBenchmark
      rw [if_pos h1]
      unfold selectBenchmark
      rw [if_pos h2]
      rfl
    unfold get_stock_analysis
    rw [if_pos hsel]
  · exact ⟨"Unable to fetch benchmark data. Tried ['", "', '",
      "']. Please try again later.", by decide⟩

/-! ## Handler-level helper lemmas -/

lemma dictSet_ne_nil (m : List (String × FloatVal)) (k : String) (v : FloatVal) :
    dictSet m k v ≠ [] := by
  cases m with
  | nil => simp [dictSet]
  | cons a rest =>
      obtain ⟨k₀, v₀⟩ := a
      by_cases h : k₀ = k <;> simp [dictSet, h]

lemma mem_dictSet (m : List (String × FloatVal)) (k : String) (v : FloatVal) :
    ∀ kv ∈ dictSet m k v, kv ∈ m ∨ kv = (k, v) := by
  induction m with
  | nil =>
      intro kv hkv
      rw [dictSet] at hkv
      exact Or.inr (List.mem_singleton.mp hkv)
  | cons a rest ih =>
      obtain ⟨k₀, v₀⟩ := a
      intro kv hkv
      by_cases h : k₀ = k
      · rw [dictSet, if_pos h] at hkv
        rcases List.mem_cons.mp hkv with h1 | h1
        · exact Or.inr h1
        · exact Or.inl (List.mem_cons_of_mem _ h1)
      · rw [dictSet, if_neg h] at hkv
        rcases List.mem_cons.mp hkv with h1 | h1
        · exact Or.inl (h1 ▸ List.mem_cons_self _ _)
        · rcases ih kv h1 with h2 | h2
          · exact Or.inl (List.mem_cons_of_mem _ h2)
          · exact Or.inr h2

lemma foldl_dictSet_ne_nil (env : String → Provider) (bench : List (ℤ × ℚ)) :
    ∀ (ts : List String) (m : List (String × FloatVal)), m ≠ [] →
      ts.foldl (fun m₀ t => dictSet m₀ t (rawCorr (get_monthly_returns (env t)) bench)) m ≠ [] := by
  intro ts
  induction ts with
  | nil => intro m hm; simpa using hm
  | cons t ts ih =>
      intro m _
      rw [List.foldl_cons]
      exact ih _ (dictSet_ne_nil _ _ _)

lemma corrMapOf_ne_nil (env : String → Provider) (bench : List (ℤ × ℚ))
    (tickers : List String) (h : tickers ≠ []) : corrMapOf env bench tickers ≠ [] := by
  obtain ⟨t, ts, rfl⟩ := List.exists_cons_of_ne_nil h
  show (t :: ts).foldl _ [] ≠ []
  rw [List.foldl_cons]
  exact foldl_dictSet_ne_nil env bench ts _ (dictSet_ne_nil _ _ _)

lemma rawCorr_good (s b : List (ℤ × ℚ)) :
    rawCorr s b = FloatVal.nan ∨ goodVal (rawCorr s b) := by
  unfold rawCorr
  by_cases h : s ≠ [] ∧ b ≠ []
  · rw [if_pos h]
    by_cases hj : innerJoin s b ≠ []
    · rw [if_pos hj]
      unfold seriesCorr
      by_cases hg : centeredDot ((innerJoin s b).map Prod.fst) ((innerJoin s b).map Prod.fst) = 0 ∨
          centeredDot ((innerJoin s b).map Prod.snd) ((innerJoin s b).map Prod.snd) = 0
      · rw [if_pos hg]
        exact Or.inl rfl
      · rw [if_neg hg]
        push_neg at hg
        refine Or.inr ⟨by simp, ?_⟩
        show 0 < centeredDot _ _ * centeredDot _ _
        have h1 := lt_of_le_of_ne (centeredDot_self_nonneg ((innerJoin s b).map Prod.fst)) (Ne.symm hg.1)
        have h2 := lt_of_le_of_ne (centeredDot_self_nonneg ((innerJoin s b).map Prod.snd)) (Ne.symm hg.2)
        exact mul_pos h1 h2
    · rw [if_neg hj]
      exact Or.inr ⟨by simp, by norm_num [keyRep]⟩
  · rw [if_neg h]
    exact Or.inr ⟨by simp, by norm_num [keyRep]⟩

lemma corrMapOf_values (env : String → Provider) (bench : List (ℤ × ℚ)) (tickers : List String) :
    ∀ kv ∈ corrMapOf env bench tickers, kv.2 = FloatVal.nan ∨ goodVal kv.2 := by
  suffices h : ∀ (ts : List String) (m : List (String × FloatVal)),
      (∀ kv ∈ m, kv.2 = FloatVal.nan ∨ goodVal kv.2) →
      ∀ kv ∈ ts.foldl
        (fun m₀ t => dictSet m₀ t (rawCorr (get_monthly_returns (env t)) bench)) m,
        kv.2 = FloatVal.nan ∨ goodVal kv.2 by
    exact h tickers [] (by simp)
  intro ts
  induction ts with
  | nil => intro m hm; simpa using hm
  | cons t ts ih =>
      intro m hm
      rw [List.foldl_cons]
      apply ih
      intro kv hkv
      rcases mem_dictSet m t _ kv hkv with h1 | h1
      · exact hm kv h1
      · rw [h1]
        exact rawCorr_good _ _

lemma insertCorr_perm (x : String × FloatVal) (l : List (String × FloatVal)) :
    List.Perm (insertCorr x l) (x :: l) := by
  induction l with
  | nil => exact List.Perm.refl _
  | cons y ys ih =>
      rw [insertCorr]
      by_cases h : ltKey y.2 x.2
      · simp only [h, if_true]
        exact (ih.cons y).trans (List.Perm.swap x y ys)
      · simp only [h, if_false]
        exact List.Perm.refl _

lemma sortCorr_perm (l : List (String × FloatVal)) : List.Perm (sortCorr l) l := by
  induction l with
  | nil => exact List.Perm.refl _
  | cons x xs ih =>
      rw [sortCorr]
      exact (insertCorr_perm x (sortCorr xs)).trans (ih.cons x)

lemma sortCorr_ne_nil (l : List (String × FloatVal)) (h : l ≠ []) : sortCorr l ≠ [] := by
  intro hc
  exact h (List.eq_nil_of_length_eq_zero (((sortCorr_perm l).length_eq.symm.trans (by rw [hc]; rfl))))

lemma get_stock_analysis_ok (env : String → Provider) (tickers : List String)
    (hb : (selectBenchmark env benchmark_options).series ≠ [])
    (x : String × FloatVal) (xs : List (String × FloatVal))
    (hsort : sortCorr
      (corrMapOf env (selectBenchmark env benchmark_options).series tickers) = x :: xs) :
    get_stock_analysis env tickers = Response.ok
      { stockData := tickers.map (fun t₀ =>
          processTicker (selectBenchmark env benchmark_options).series
            (get_monthly_returns (env t₀)) t₀)
        benchmarkReturns := (selectBenchmark env benchmark_options).series.map Prod.snd
        benchmarkUsed := (selectBenchmark env benchmark_options).used
        highestCorrTicker := ((x :: xs).getLast (List.cons_ne_nil x xs)).1
        lowestCorrTicker := x.1 } := by
  unfold get_stock_analysis
  rw [if_neg hb, hsort]
  rfl

/-! ## Concrete evaluations at the witness environments -/

lemma stub_gmr : get_monthly_returns stubProvider = [(1, 1), (2, 2)] := by
  simp only [get_monthly_returns, fetch_body, stubProvider, monthly_returns_of,
    pct_change, pctPairs, dropna, List.filterMap_cons, List.filterMap_nil]
  norm_num [List.cons_ne_nil]

lemma stubEnv_gmr (s : String) : get_monthly_returns (stubEnv s) = [(1, 1), (2, 2)] :=
  stub_gmr

lemma stubEnv_sel : selectBenchmark stubEnv benchmark_options =
    { series := [(1, 1), (2, 2)], used := some "^IXIC", fetched := ["^IXIC"] } := by
  simp only [selectBenchmark, benchmark_options, stubEnv_gmr]
  norm_num [List.cons_ne_nil]

lemma mixedEnv_eq (s : String) (h : ¬ s = "BAD") : mixedEnv s = stubProvider := by
  simp [mixedEnv, h]

lemma mixedEnv_gmr_IXIC : get_monthly_returns (mixedEnv "^IXIC") = [(1, 1), (2, 2)] := by
  rw [mixedEnv_eq _ (by decide)]
  exact stub_gmr

lemma mixedEnv_gmr_BAD : get_monthly_returns (mixedEnv "BAD") = [] := by
  simp [mixedEnv, get_monthly_returns, fetch_body]

lemma mixedEnv_sel : selectBenchmark mixedEnv benchmark_options =
    { series := [(1, 1), (2, 2)], used := some "^IXIC", fetched := ["^IXIC"] } := by
  show selectBenchmark mixedEnv ("^IXIC" :: ["^GSPC"]) = _
  unfold selectBenchmark
  rw [mixedEnv_gmr_IXIC, if_neg (by simp)]

lemma stub_rawCorr : rawCorr [(1, 1), (2, 2)] [(1, 1), (2, 2)] =
    FloatVal.sqrtRatio (1 / 2) (1 / 4) := by
  simp only [rawCorr, innerJoin, lookupDate, seriesCorr, qmean, centeredDot,
    List.filterMap_cons, List.filterMap_nil, List.map_cons, List.map_nil, List.zip_cons_cons,
    List.zip_nil_right, List.sum_cons, List.sum_nil, List.length_cons, List.length_nil]
  norm_num [List.cons_ne_nil]

lemma stub_sharpe : calculate_sharpe_ratio [some 1, some 2] 0.02 =
    FloatVal.sharpeVal (899 / 600) (1 / 2) := by
  simp only [calculate_sharpe_ratio, validVals, excessOf, sampleVar, qmean, centeredDot,
    List.filterMap_cons, List.filterMap_nil, List.map_cons, List.map_nil, List.zip_cons_cons,
    List.zip_nil_right, List.sum_cons, List.sum_nil, List.length_cons, List.length_nil]
  norm_num [List.cons_ne_nil]

lemma stub_pt : processTicker [(1, 1), (2, 2)] [(1, 1), (2, 2)] "A" =
    { ticker := "A", correlation := FloatVal.sqrtRatio (1 / 2) (1 / 4),
      sharpe_ratio := FloatVal.sharpeVal (899 / 600) (1 / 2), returns := [1, 2] } := by
  simp only [processTicker, List.map_cons, List.map_nil, stub_rawCorr, stub_sharpe, denan]

lemma stub_cm : corrMapOf stubEnv [(1, 1), (2, 2)] ["A"] =
    [("A", FloatVal.sqrtRatio (1 / 2) (1 / 4))] := by
  simp only [corrMapOf, List.foldl_cons, List.foldl_nil, stubEnv_gmr, stub_rawCorr, dictSet]

lemma stub_handler_A : get_stock_analysis stubEnv ["A"] = Response.ok resW := by
  have hcm := stub_cm
  have hsum : summaryOf [("A", FloatVal.sqrtRatio (1 / 2) (1 / 4))] ["A"] =
      Except.ok ("A", "A") := by
    simp only [summaryOf, List.getLast_singleton]
  conv_lhs =>
    unfold get_stock_analysis
    rw [stubEnv_sel]
  rw [if_neg (by simp)]
  simp only [hcm, stub_rawCorr, sortCorr, insertCorr, hsum, List.map_cons, List.map_nil,
    stubEnv_gmr, stub_pt, resW]

lemma stub_handler_nil :
    get_stock_analysis stubEnv [] =
      Response.serverError "Error in analysis: list index out of range" := by
  unfold get_stock_analysis
  rw [if_neg (by rw [stubEnv_sel]; simp)]
  rfl

/-! ## The handler-level claims -/

/-- C6: when the benchmark resolves and the ticker list is non-empty, the
request succeeds with exactly one `TickerResult` per input ticker, in input
order without deduplication (the ticker column of `stockData` is the input
list itself), and a ticker whose fetch degrades to the empty series yields
`correlation = 0.0`, `sharpe_ratio = 0.0` and an empty returns list. -/
theorem per_ticker_C6 (env : String → Provider) (tickers : List String)
    (ht : tickers ≠ [])
    (hb : (selectBenchmark env benchmark_options).series ≠ []) :
    ∃ res : AnalysisResult,
      get_stock_analysis env tickers = Response.ok res ∧
      res.stockData = tickers.map (fun t₀ =>
        processTicker (selectBenchmark env benchmark_options).series
          (get_monthly_returns (env t₀)) t₀) ∧
      res.stockData.length = tickers.length ∧
      res.stockData.map TickerResult.ticker = tickers ∧
      (∀ t : String, get_monthly_returns (env t) = [] →
        processTicker (selectBenchmark env benchmark_options).series
          (get_monthly_returns (env t)) t =
          { ticker := t, correlation := FloatVal.lit 0, sharpe_ratio := FloatVal.lit 0,
            returns := [] }) := by
  obtain ⟨x, xs, hsort⟩ :
      ∃ x xs, sortCorr
        (corrMapOf env (selectBenchmark env benchmark_options).series tickers) = x :: xs :=
    List.exists_cons_of_ne_nil (sortCorr_ne_nil _ (corrMapOf_ne_nil env _ tickers ht))
  refine ⟨_, get_stock_analysis_ok env tickers hb x xs hsort, rfl, ?_, ?_, ?_⟩
  · simp
  · rw [List.map_map]
    have hcomp : (TickerResult.ticker ∘ fun t₀ =>
        processTicker (selectBenchmark env benchmark_options).series
          (get_monthly_returns (env t₀)) t₀) = id := by
      funext t₀
      rfl
    rw [hcomp, List.map_id]
  · intro t h0
    rw [h0]
    simp [processTicker, rawCorr, calculate_sharpe_ratio, denan]

/-- C6, witness: one failing ticker `BAD` with a resolving benchmark: the
response is 200, `stockData` holds exactly the zero-valued result for
`BAD`. -/
theorem per_ticker_C6_witness :
    ∃ res : AnalysisResult,
      get_stock_analysis mixedEnv ["BAD"] = Response.ok res ∧
      res.stockData = ["BAD"].map (fun t₀ =>
        processTicker (selectBenchmark mixedEnv benchmark_options).series
          (get_monthly_returns (mixedEnv t₀)) t₀) ∧
      res.stockData.length = ["BAD"].length ∧
      res.stockData.map TickerResult.ticker = ["BAD"] ∧
      (∀ t : String, get_monthly_returns (mixedEnv t) = [] →
        processTicker (selectBenchmark mixedEnv benchmark_options).series
          (get_monthly_returns (mixedEnv t)) t =
          { ticker := t, correlation := FloatVal.lit 0, sharpe_ratio := FloatVal.lit 0,
            returns := [] }) :=
  per_ticker_C6 mixedEnv ["BAD"] (by simp) (by rw [mixedEnv_sel]; simp)

/-- C7 (amended): when the ticker list is empty and a benchmark resolves,
the request does not produce a success result: the summary fallback indexes
`tickers[0]` on the empty list, the IndexError reaches the outer handler,
and the answer is the 500 response with the index error message. -/
theorem empty_tickers_C7 (env : String → Provider)
    (hb : (selectBenchmark env benchmark_options).series ≠ []) :
    get_stock_analysis env [] =
      Response.serverError "Error in analysis: list index out of range" := by
  unfold get_stock_analysis
  rw [if_neg hb]
  rfl

/-- C7, witness: the amended behaviour at the concrete resolving environment
`stubEnv`. -/
theorem empty_tickers_C7_witness :
    get_stock_analysis stubEnv [] =
      Response.serverError "Error in analysis: list index out of range" :=
  empty_tickers_C7 stubEnv (by rw [stubEnv_sel]; simp)

/-- C7, counterexample to the claim as stated: at `stubEnv` the benchmark
resolves, yet the empty ticker list yields no 200 result at all. -/
theorem empty_tickers_C7_counterexample :
    (selectBenchmark stubEnv benchmark_options).series ≠ [] ∧
    ¬ ∃ res : AnalysisResult, get_stock_analysis stubEnv [] = Response.ok res := by
  constructor
  · rw [stubEnv_sel]
    simp
  · rintro ⟨res, hres⟩
    rw [stub_handler_nil] at hres
    exact Response.noConfusion hres

/-- C10: every 200 response is NaN-free: `denan` never returns NaN, and each
`TickerResult` of the payload carries a correlation and a Sharpe ratio that
are not NaN (its returns and the benchmark returns are plain rationals,
`dropna` having removed every NaN before they are listed). -/
theorem no_nan_C10 (env : String → Provider) (tickers : List String)
    (res : AnalysisResult) (h : get_stock_analysis env tickers = Response.ok res) :
    (∀ v : FloatVal, denan v ≠ FloatVal.nan) ∧
    ∀ tr ∈ res.stockData,
      tr.correlation ≠ FloatVal.nan ∧ tr.sharpe_ratio ≠ FloatVal.nan := by
  have hd : ∀ v : FloatVal, denan v ≠ FloatVal.nan := by
    intro v
    cases v <;> simp [denan]
  refine ⟨hd, ?_⟩
  unfold get_stock_analysis at h
  by_cases hb : (selectBenchmark env benchmark_options).series = []
  · rw [if_pos hb] at h
    exact absurd h (by simp)
  · rw [if_neg hb] at h
    cases hsum : summaryOf
        (sortCorr (corrMapOf env (selectBenchmark env benchmark_options).series tickers))
        tickers with
    | error e =>
        rw [hsum] at h
        exact absurd h (by simp)
    | ok hilo =>
        rw [hsum] at h
        have hsd : res.stockData = tickers.map (fun t₀ =>
            processTicker (selectBenchmark env benchmark_options).series
              (get_monthly_returns (env t₀)) t₀) := by
          injection h with h'
          rw [← h']
        intro tr htr
        rw [hsd] at htr
        obtain ⟨t₀, _, rfl⟩ := List.mem_map.mp htr
        exact ⟨hd _, hd _⟩

/-- C10, witness: the NaN-free payload of the concrete 200 response at
`stubEnv` for the single ticker `A`. -/
theorem no_nan_C10_witness :
    (∀ v : FloatVal, denan v ≠ FloatVal.nan) ∧
    ∀ tr ∈ resW.stockData,
      tr.correlation ≠ FloatVal.nan ∧ tr.sharpe_ratio ≠ FloatVal.nan :=
  no_nan_C10 stubEnv ["A"] resW stub_handler_A

/-! ## The float comparison of the sort, related to the real values -/

lemma lt_iff_sq_lt_of_nonneg {x y : ℝ} (hx : 0 ≤ x) (hy : 0 ≤ y) :
    x < y ↔ x ^ 2 < y ^ 2 :=
  (pow_lt_pow_iff_left₀ hx hy two_ne_zero).symm

lemma lt_iff_sq_lt_of_neg {x y : ℝ} (hx : x < 0) (hy : y < 0) :
    x < y ↔ y ^ 2 < x ^ 2 := by
  have h1 : x < y ↔ -y < -x := by constructor <;> intro <;> linarith
  rw [h1, lt_iff_sq_lt_of_nonneg (by linarith) (by linarith), neg_pow, neg_pow]
  simp

lemma qsLT_iff (a b c d : ℚ) (hb : 0 < b) (hd : 0 < d) :
    qsLT (a, b) (c, d) = true ↔
      (a : ℝ) / Real.sqrt (b : ℝ) < (c : ℝ) / Real.sqrt (d : ℝ) := by
  have hbR : (0 : ℝ) < (b : ℝ) := by exact_mod_cast hb
  have hdR : (0 : ℝ) < (d : ℝ) := by exact_mod_cast hd
  have hsb : (0 : ℝ) < Real.sqrt (b : ℝ) := Real.sqrt_pos.mpr hbR
  have hsd : (0 : ℝ) < Real.sqrt (d : ℝ) := Real.sqrt_pos.mpr hdR
  have hsqb : Real.sqrt (b : ℝ) ^ 2 = (b : ℝ) := Real.sq_sqrt hbR.le
  have hsqd : Real.sqrt (d : ℝ) ^ 2 = (d : ℝ) := Real.sq_sqrt hdR.le
  have hdiv : ((a : ℝ) / Real.sqrt (b : ℝ) < (c : ℝ) / Real.sqrt (d : ℝ)) ↔
      (a : ℝ) * Real.sqrt (d : ℝ) < (c : ℝ) * Real.sqrt (b : ℝ) :=
    div_lt_div_iff₀ hsb hsd
  show (if a < 0 then if 0 ≤ c then true else decide (c ^ 2 * b < a ^ 2 * d)
      else if c ≤ 0 then false else decide (a ^ 2 * d < c ^ 2 * b)) = true ↔ _
  by_cases ha : a < 0
  · have haR : (a : ℝ) < 0 := by exact_mod_cast ha
    by_cases hc : 0 ≤ c
    · have hcR : (0 : ℝ) ≤ (c : ℝ) := by exact_mod_cast hc
      rw [if_pos ha, if_pos hc]
      simp only [true_iff]
      calc (a : ℝ) / Real.sqrt (b : ℝ) < 0 := div_neg_of_neg_of_pos haR hsb
        _ ≤ (c : ℝ) / Real.sqrt (d : ℝ) := div_nonneg hcR hsd.le
    · have hcR : (c : ℝ) < 0 := by push_neg at hc; exact_mod_cast hc
      rw [if_pos ha, if_neg hc, decide_eq_true_eq]
      rw [hdiv, lt_iff_sq_lt_of_neg (mul_neg_of_neg_of_pos haR hsd)
        (mul_neg_of_neg_of_pos hcR hsb)]
      rw [mul_pow, mul_pow, hsqb, hsqd]
      exact_mod_cast Iff.rfl
  · have haR : (0 : ℝ) ≤ (a : ℝ) := by push_neg at ha; exact_mod_cast ha
    by_cases hc : c ≤ 0
    · have hcR : (c : ℝ) ≤ 0 := by exact_mod_cast hc
      rw [if_neg ha, if_pos hc]
      constructor
      · intro hx
        exact absurd hx (by simp)
      · intro hlt
        have h1 : (c : ℝ) / Real.sqrt (d : ℝ) ≤ 0 :=
          div_nonpos_iff.mpr (Or.inr ⟨hcR, hsd.le⟩)
        have h2 : (0 : ℝ) ≤ (a : ℝ) / Real.sqrt (b : ℝ) := div_nonneg haR hsb.le
        exact absurd hlt (by linarith)
    · have hcR : (0 : ℝ) < (c : ℝ) := by push_neg at hc; exact_mod_cast hc
      rw [if_neg ha, if_neg hc, decide_eq_true_eq]
      rw [hdiv, lt_iff_sq_lt_of_nonneg (mul_nonneg haR hsd.le)
        (mul_nonneg hcR.le hsb.le)]
      rw [mul_pow, mul_pow, hsqb, hsqd]
      exact_mod_cast Iff.rfl

lemma ltKey_iff (u v : FloatVal) (hu : 0 < (keyRep u).2) (hv : 0 < (keyRep v).2) :
    ltKey u v = true ↔ realLT u v := by
  unfold ltKey realLT
  rw [show keyRep u = ((keyRep u).1, (keyRep u).2) from rfl,
    show keyRep v = ((keyRep v).1, (keyRep v).2) from rfl]
  exact qsLT_iff _ _ _ _ hu hv

lemma ltKey_false_realLE (u v : FloatVal) (hu : 0 < (keyRep u).2) (hv : 0 < (keyRep v).2)
    (h : ¬ ltKey v u = true) : realLE u v := by
  rw [ltKey_iff v u hv hu] at h
  exact not_lt.mp h

lemma realLE_trans {u v w : FloatVal} (h1 : realLE u v) (h2 : realLE v w) : realLE u w :=
  le_trans h1 h2

lemma realLT_realLE {u v : FloatVal} (h : realLT u v) : realLE u v :=
  le_of_lt h

lemma sqrt_div_of_pos (x c : ℝ) (hc : 0 < c) :
    Real.sqrt (x / c) = Real.sqrt x / Real.sqrt c := by
  rcases le_or_lt 0 x with hx | hx
  · exact Real.sqrt_div hx c
  · have h1 : x / c ≤ 0 := div_nonpos_iff.mpr (Or.inr ⟨hx.le, hc.le⟩)
    rw [Real.sqrt_eq_zero_of_nonpos h1, Real.sqrt_eq_zero_of_nonpos hx.le]
    simp

lemma means_iff (v : FloatVal) (hv : v ≠ FloatVal.nan) (r : ℝ) :
    v.means r ↔ r = ((keyRep v).1 : ℝ) / Real.sqrt ((keyRep v).2 : ℝ) := by
  cases v with
  | nan => exact absurd rfl hv
  | lit q =>
      show (r = (q : ℝ)) ↔ r = (q : ℝ) / Real.sqrt (((1 : ℚ) : ℝ))
      norm_num
  | sqrtRatio c d => exact Iff.rfl
  | sharpeVal m w =>
      show (r = Real.sqrt 12 * ((m : ℝ) / Real.sqrt (w : ℝ))) ↔
        r = (m : ℝ) / Real.sqrt (((w / 12 : ℚ) : ℝ))
      have hcast : ((w / 12 : ℚ) : ℝ) = (w : ℝ) / 12 := by push_cast; ring
      have h12 : (0 : ℝ) < 12 := by norm_num
      have hs12 : Real.sqrt 12 ≠ 0 := by positivity
      rw [hcast, sqrt_div_of_pos _ _ h12]
      have key : (m : ℝ) / (Real.sqrt (w : ℝ) / Real.sqrt 12) =
          Real.sqrt 12 * ((m : ℝ) / Real.sqrt (w : ℝ)) := by
        rw [div_div_eq_mul_div, mul_comm (m : ℝ), mul_div_assoc]
      rw [key]

lemma realLE_floatLE (u v : FloatVal) (hu : u ≠ FloatVal.nan) (hv : v ≠ FloatVal.nan)
    (h : realLE u v) : floatLE u v := by
  intro r s hr hs
  rw [means_iff u hu] at hr
  rw [means_iff v hv] at hs
  rw [hr, hs]
  exact h

lemma insertCorr_pairwise (x : String × FloatVal) (hx : goodVal x.2) :
    ∀ l : List (String × FloatVal), (∀ kv ∈ l, goodVal kv.2) →
      l.Pairwise (fun a b => realLE a.2 b.2) →
      (insertCorr x l).Pairwise (fun a b => realLE a.2 b.2) := by
  intro l
  induction l with
  | nil =>
      intro _ _
      simp [insertCorr]
  | cons y ys ih =>
      intro hl hs
      obtain ⟨hy, hys⟩ := List.pairwise_cons.mp hs
      have hyg : goodVal y.2 := hl y (List.mem_cons_self _ _)
      have hysg : ∀ kv ∈ ys, goodVal kv.2 := fun kv hkv => hl kv (List.mem_cons_of_mem _ hkv)
      rw [insertCorr]
      by_cases h : ltKey y.2 x.2
      · rw [if_pos h]
        rw [List.pairwise_cons]
        refine ⟨?_, ih hysg hys⟩
        intro z hz
        rcases List.mem_cons.mp ((insertCorr_perm x ys).mem_iff.mp hz) with rfl | hz1
        · exact realLT_realLE ((ltKey_iff y.2 z.2 hyg.2 hx.2).mp h)
        · exact hy z hz1
      · rw [if_neg h]
        rw [List.pairwise_cons]
        have hxy : realLE x.2 y.2 := ltKey_false_realLE x.2 y.2 hx.2 hyg.2 h
        refine ⟨?_, hs⟩
        intro z hz
        rcases List.mem_cons.mp hz with rfl | hz1
        · exact hxy
        · exact realLE_trans hxy (hy z hz1)

lemma sortCorr_pairwise (l : List (String × FloatVal)) :
    (∀ kv ∈ l, goodVal kv.2) →
    (sortCorr l).Pairwise (fun a b => realLE a.2 b.2) := by
  induction l with
  | nil =>
      intro _
      simp [sortCorr]
  | cons x xs ih =>
      intro hl
      rw [sortCorr]
      refine insertCorr_pairwise x (hl x (List.mem_cons_self _ _)) (sortCorr xs) ?_ ?_
      · intro kv hkv
        exact hl kv (List.mem_cons_of_mem _ ((sortCorr_perm xs).mem_iff.mp hkv))
      · exact ih (fun kv hkv => hl kv (List.mem_cons_of_mem _ hkv))

/-- C8: with a resolved benchmark, a non-empty ticker list and no NaN among
the stored correlations (a NaN key has no value to order by), the response
is built from the sorted correlation map: the sorted sequence is a
permutation of the map, it is ascending by correlation value (every real
value of an earlier entry is at most every real value of a later one),
`lowestCorrTicker` is the ticker of its first entry and `highestCorrTicker`
the ticker of its last entry. -/
theorem sorted_summary_C8 (env : String → Provider) (tickers : List String)
    (ht : tickers ≠ [])
    (hb : (selectBenchmark env benchmark_options).series ≠ [])
    (hnn : ∀ kv ∈ corrMapOf env (selectBenchmark env benchmark_options).series tickers,
      kv.2 ≠ FloatVal.nan) :
    ∃ (res : AnalysisResult) (x : String × FloatVal) (xs : List (String × FloatVal)),
      get_stock_analysis env tickers = Response.ok res ∧
      sortCorr (corrMapOf env (selectBenchmark env benchmark_options).series tickers) =
        x :: xs ∧
      res.lowestCorrTicker = x.1 ∧
      res.highestCorrTicker = ((x :: xs).getLast (List.cons_ne_nil x xs)).1 ∧
      List.Perm (x :: xs)
        (corrMapOf env (selectBenchmark env benchmark_options).series tickers) ∧
      (x :: xs).Pairwise (fun a b => floatLE a.2 b.2) := by
  obtain ⟨x, xs, hsort⟩ :=
    List.exists_cons_of_ne_nil (sortCorr_ne_nil _ (corrMapOf_ne_nil env _ tickers ht))
  have hgood : ∀ kv ∈ corrMapOf env (selectBenchmark env benchmark_options).series tickers,
      goodVal kv.2 := by
    intro kv hkv
    rcases corrMapOf_values env _ tickers kv hkv with h | h
    · exact absurd h (hnn kv hkv)
    · exact h
  refine ⟨_, x, xs, get_stock_analysis_ok env tickers hb x xs hsort, hsort, rfl, rfl, ?_, ?_⟩
  · rw [← hsort]
    exact sortCorr_perm _
  · have hp := sortCorr_pairwise _ hgood
    rw [hsort] at hp
    refine hp.imp_of_mem ?_
    intro a b ha hb' hr
    have hamem : a ∈ corrMapOf env (selectBenchmark env benchmark_options).series tickers := by
      rw [← hsort] at ha
      exact (sortCorr_perm _).mem_iff.mp ha
    have hbmem : b ∈ corrMapOf env (selectBenchmark env benchmark_options).series tickers := by
      rw [← hsort] at hb'
      exact (sortCorr_perm _).mem_iff.mp hb'
    exact realLE_floatLE a.2 b.2 (hgood a hamem).1 (hgood b hbmem).1 hr

/-- C8, witness: the single-ticker request at `stubEnv`, whose correlation
map is the one non-NaN entry for ticker `A`. -/
theorem sorted_summary_C8_witness :
    ∃ (res : AnalysisResult) (x : String × FloatVal) (xs : List (String × FloatVal)),
      get_stock_analysis stubEnv ["A"] = Response.ok res ∧
      sortCorr (corrMapOf stubEnv (selectBenchmark stubEnv benchmark_options).series ["A"]) =
        x :: xs ∧
      res.lowestCorrTicker = x.1 ∧
      res.highestCorrTicker = ((x :: xs).getLast (List.cons_ne_nil x xs)).1 ∧
      List.Perm (x :: xs)
        (corrMapOf stubEnv (selectBenchmark stubEnv benchmark_options).series ["A"]) ∧
      (x :: xs).Pairwise (fun a b => floatLE a.2 b.2) :=
  sorted_summary_C8 stubEnv ["A"] (by simp) (by rw [stubEnv_sel]; simp)
    (by simp only [stubEnv_sel]; rw [stub_cm]; simp)
